import Mathlib

set_option maxRecDepth 4000

/-!
Verification of the storage core of the KodeDotSD-Mounter firmware
(src/lib/Storage/src/Storage.cpp).

The development shallowly embeds the mass-storage callbacks onRead and
onWrite, the start/stop handler, and the Storage namespace lifecycle
functions mount, unmount, isMounted and isUsbOnline.  Machine integers
are modelled as Nat; the SD card is a list of sectors together with the
sets of sector indices on which the raw read or raw write primitive
fails.  Every translator run additionally yields the trace of raw
sector operations it performed, so that the operation-count properties
of the specification can be stated exactly.
-/

/-- A sector-addressed storage card as seen through SD_MMC: a fixed
sector size, the list of sectors (each a list of byte values), and the
sector indices on which readRAW respectively writeRAW fail. -/
structure Disk where
  sec : Nat
  data : List (List Nat)
  readFail : List Nat
  writeFail : List Nat
deriving DecidableEq

/-- One raw medium operation performed by the translator. -/
inductive MedOp where
  | read : Nat → MedOp
  | write : Nat → MedOp
deriving DecidableEq

/-- The sector index an operation touches. -/
def MedOp.blk : MedOp → Nat
  | .read b => b
  | .write b => b

/-- SD_MMC.readRAW: fetch one whole sector, or fail. -/
def readRAW (d : Disk) (blk : Nat) : Option (List Nat) :=
  if blk ∈ d.readFail then none
  else some (d.data.getD blk (List.replicate d.sec 0))

/-- SD_MMC.writeRAW: overwrite one whole sector, or fail. -/
def writeRAW (d : Disk) (blk : Nat) (buf : List Nat) : Option Disk :=
  if blk ∈ d.writeFail then none
  else some { d with data := d.data.set blk buf }

/-- The while loop of onRead in Storage.cpp.  The first argument after
the disk is fuel bounding the number of iterations; the C loop consumes
at least one byte of remain per iteration whenever the byte offset is
below the sector size, so fuel equal to the initial remain is enough.
Returns the assembled bytes (none for a -1 return) and the trace of raw
operations. -/
def onReadLoop (d : Disk) : Nat → Nat → Nat → Nat → Option (List Nat) × List MedOp
  | _, 0, _, _ => (some [], [])
  | 0, _ + 1, _, _ => (none, [])
  | fuel + 1, remain + 1, blk, off =>
    match readRAW d blk with
    | none => (none, [MedOp.read blk])
    | some tmp =>
      let chunk := min (remain + 1) (d.sec - off)
      let rest := onReadLoop d fuel (remain + 1 - chunk) (blk + 1) 0
      (rest.1.map (fun tl => (tmp.drop off).take chunk ++ tl), MedOp.read blk :: rest.2)

/-- onRead from Storage.cpp: translate a (lba, offset, bufsize) host
read into whole-sector reads.  A none result is the C function's -1. -/
def onRead (d : Disk) (lba offset bufsize : Nat) : Option (List Nat) × List MedOp :=
  if d.sec = 0 ∨ bufsize = 0 then (none, [])
  else onReadLoop d bufsize bufsize lba offset

/-- The while loop of onWrite in Storage.cpp.  The source buffer plays
the role of both src and remain (remain is always the number of bytes
of src still to be consumed).  Returns the success flag (false for a -1
return), the resulting disk (mutations before a failure are kept, as on
real hardware), and the trace of raw operations. -/
def onWriteLoop : Disk → Nat → Nat → Nat → List Nat → Bool × Disk × List MedOp
  | d, _, _, _, [] => (true, d, [])
  | d, 0, _, _, _ :: _ => (false, d, [])
  | d, fuel + 1, blk, off, a :: src =>
    let srcAll := a :: src
    let rmw := decide (off ≠ 0) || decide (srcAll.length < d.sec)
    match (if rmw then readRAW d blk else some (List.replicate d.sec 0)) with
    | none => (false, d, [MedOp.read blk])
    | some tmp =>
      let chunk := min srcAll.length (d.sec - off)
      let buf := tmp.take off ++ srcAll.take chunk ++ tmp.drop (off + chunk)
      match writeRAW d blk buf with
      | none => (false, d, (if rmw then [MedOp.read blk] else []) ++ [MedOp.write blk])
      | some d2 =>
        let rest := onWriteLoop d2 fuel (blk + 1) 0 (srcAll.drop chunk)
        (rest.1, rest.2.1, (if rmw then [MedOp.read blk] else []) ++ MedOp.write blk :: rest.2.2)

/-- onWrite from Storage.cpp: translate a (lba, offset, buffer) host
write into whole-sector writes with read-modify-write on sectors not
fully covered.  A false flag is the C function's -1. -/
def onWrite (d : Disk) (lba offset : Nat) (src : List Nat) : Bool × Disk × List MedOp :=
  if d.sec = 0 ∨ src.length = 0 then (false, d, [])
  else onWriteLoop d src.length lba offset src

/-- The int32_t value onRead returns: -1 on failure, bufsize on success. -/
def onReadRet (d : Disk) (lba offset bufsize : Nat) : Int :=
  match (onRead d lba offset bufsize).1 with
  | none => -1
  | some _ => (bufsize : Int)

/-- The int32_t value onWrite returns: -1 on failure, bufsize on success. -/
def onWriteRet (d : Disk) (lba offset : Nat) (src : List Nat) : Int :=
  if (onWrite d lba offset src).1 then (src.length : Int) else -1

/-- Every sector stored on the disk has exactly sectorSize bytes. -/
def diskWF (d : Disk) : Prop := ∀ s ∈ d.data, s.length = d.sec

instance (d : Disk) : Decidable (diskWF d) := List.decidableBAll _ d.data

/-- The byte stored at absolute byte position i of the medium (sector
i / sec, intra-sector offset i % sec); positions beyond the stored data
read as 0, matching readRAW's default sector. -/
def mediumByte (d : Disk) (i : Nat) : Nat :=
  (d.data.getD (i / d.sec) (List.replicate d.sec 0)).getD (i % d.sec) 0

/-- The flat byte string of length len starting at absolute byte
position pos of the medium. -/
def specRead (d : Disk) (pos len : Nat) : List Nat :=
  (List.range len).map (fun j => mediumByte d (pos + j))

/-- Number of sectors a request touches: ceil((off + len) / sec). -/
def touchedCnt (off len sec : Nat) : Nat := (off + len + sec - 1) / sec

/-- The read trace the specification predicts: one raw read per touched
sector, in ascending order. -/
def readMedOps (blk cnt : Nat) : List MedOp :=
  (List.range cnt).map (fun i => MedOp.read (blk + i))

/-- Bytes still to be written when the walk reaches the i-th touched
sector of a write request. -/
def remAt (off len sec i : Nat) : Nat := if i = 0 then len else len - (i * sec - off)

/-- Whether the i-th touched sector of a write request is a boundary
sector needing read-modify-write (first sector with nonzero offset, or
fewer than a full sector's bytes remaining). -/
def rmwAt (off len sec i : Nat) : Bool :=
  (if i = 0 then decide (off ≠ 0) else false) || decide (remAt off len sec i < sec)

/-- The raw operations the specification predicts for the i-th touched
sector of a write request. -/
def sectorWOps (off len sec blk i : Nat) : List MedOp :=
  (if rmwAt off len sec i then [MedOp.read (blk + i)] else []) ++ [MedOp.write (blk + i)]

/-- The full write trace the specification predicts. -/
def writeMedOps (off len sec blk : Nat) : List MedOp :=
  ((List.range (touchedCnt off len sec)).map (sectorWOps off len sec blk)).flatten

/-- Bytes of a write request already committed to the medium once the
walk reaches the j-th touched sector. -/
def wBefore (off sec j : Nat) : Nat := if j = 0 then 0 else j * sec - off

/-- The mutable state of Storage.cpp: s_mounted, s_usbOnline, and the
SD_MMC card handle (none when the SDMMC bus is released, in which case
SD_MMC.sectorSize() reports 0). -/
structure SysState where
  mounted : Bool
  usbOnline : Bool
  card : Option Disk
deriving DecidableEq

/-- The SD_MMC view of the card handle: a released bus behaves as a
card with sector size 0 and no data. -/
def cardDisk : Option Disk → Disk
  | none => { sec := 0, data := [], readFail := [], writeFail := [] }
  | some d => d

/-- onRead as invoked through the live system state. -/
def sysOnRead (st : SysState) (lba offset bufsize : Nat) : Option (List Nat) × List MedOp :=
  onRead (cardDisk st.card) lba offset bufsize

/-- onWrite as invoked through the live system state. -/
def sysOnWrite (st : SysState) (lba offset : Nat) (src : List Nat) : Bool × Disk × List MedOp :=
  onWrite (cardDisk st.card) lba offset src

/-- The environment a mount attempt runs against: whether SD_MMC.begin
succeeds, whether a card is present (cardType not CARD_NONE), the card
itself, SD_MMC.numSectors, and whether USBMSC.begin succeeds. -/
structure Env where
  beginOk : Bool
  cardPresent : Bool
  disk : Disk
  secCount : Nat
  mscBeginOk : Bool

/-- Lifecycle side effects performed by mount and unmount, recorded so
that the no-op claims can state that nothing was done. -/
inductive LifeAct where
  | sdBegin | sdEnd | mscSetup | mscClassBegin | usbBegin | mediaAbsent | mscEnd
deriving DecidableEq

namespace Storage

/-- Storage::mount from Storage.cpp. -/
def mount (env : Env) (st : SysState) : Bool × SysState × List LifeAct :=
  if st.mounted then (true, st, [])
  else if env.beginOk = false then (false, st, [LifeAct.sdBegin])
  else
    let st1 : SysState := { st with card := some env.disk }
    if env.cardPresent = false then
      (false, { st1 with card := none }, [LifeAct.sdBegin, LifeAct.sdEnd])
    else if env.disk.sec = 0 ∨ env.secCount = 0 then
      (false, { st1 with card := none }, [LifeAct.sdBegin, LifeAct.mscSetup, LifeAct.sdEnd])
    else if env.mscBeginOk = false then
      (false, { st1 with card := none },
        [LifeAct.sdBegin, LifeAct.mscSetup, LifeAct.mscClassBegin, LifeAct.sdEnd])
    else
      (true, { st1 with mounted := true },
        [LifeAct.sdBegin, LifeAct.mscSetup, LifeAct.mscClassBegin, LifeAct.usbBegin])

/-- Storage::unmount from Storage.cpp. -/
def unmount (st : SysState) : SysState × List LifeAct :=
  if st.mounted = false then (st, [])
  else ({ st with mounted := false, card := none },
    [LifeAct.mediaAbsent, LifeAct.mscEnd, LifeAct.sdEnd])

/-- Storage::isMounted. -/
def isMounted (st : SysState) : Bool := st.mounted

/-- Storage::isUsbOnline. -/
def isUsbOnline (st : SysState) : Bool := st.usbOnline

end Storage

/-- The MSC start/stop callback onStartStop from Storage.cpp. -/
def onStartStop (st : SysState) (start loadEject : Bool) : Bool × SysState × List LifeAct :=
  if start = false && loadEject = true then
    (true, (Storage.unmount st).1, (Storage.unmount st).2)
  else (true, st, [])

/-- The ARDUINO_USB_* event kinds usbEventCallback distinguishes. -/
inductive UsbEvent where
  | started | resume | suspend | stopped | other
deriving DecidableEq

/-- usbEventCallback from Storage.cpp. -/
def usbEventCallback (st : SysState) (e : UsbEvent) : SysState :=
  match e with
  | .started => { st with usbOnline := true }
  | .resume => { st with usbOnline := true }
  | .suspend => { st with usbOnline := false }
  | .stopped => { st with usbOnline := false }
  | .other => st

/-- The invariant the specification states for the lifecycle: while
Unmounted the medium handle is released. -/
def SInv (st : SysState) : Prop := st.mounted = false → st.card = none

/-! ### Generic helper lemmas -/

theorem getD_eq_getElem_of_lt {α : Type} (l : List α) (i : Nat) (x : α) (h : i < l.length) :
    l.getD i x = l[i] := by
  rw [List.getD_eq_getElem?_getD, List.getElem?_eq_getElem h]
  rfl

theorem getD_set_self {α : Type} (l : List α) (i : Nat) (a x : α) (h : i < l.length) :
    (l.set i a).getD i x = a := by
  rw [List.getD_eq_getElem?_getD, List.getElem?_eq_getElem (by simpa using h)]
  simp

theorem getD_set_ne {α : Type} (l : List α) {i j : Nat} (a x : α) (h : i ≠ j) :
    (l.set i a).getD j x = l.getD j x := by
  by_cases hj : j < l.length
  · rw [List.getD_eq_getElem?_getD, List.getD_eq_getElem?_getD,
      List.getElem?_eq_getElem (by simpa using hj), List.getElem?_eq_getElem hj]
    simp [List.getElem_set_ne h]
  · rw [List.getD_eq_getElem?_getD, List.getD_eq_getElem?_getD,
      List.getElem?_eq_none (by simpa using (by omega : l.length ≤ j)),
      List.getElem?_eq_none (by omega : l.length ≤ j)]

theorem getD_drop {α : Type} (l : List α) (n i : Nat) (x : α) :
    (l.drop n).getD i x = l.getD (n + i) x := by
  by_cases h : n + i < l.length
  · rw [List.getD_eq_getElem?_getD, List.getD_eq_getElem?_getD,
      List.getElem?_eq_getElem (by simp; omega), List.getElem?_eq_getElem h]
    simp
  · rw [List.getD_eq_getElem?_getD, List.getD_eq_getElem?_getD,
      List.getElem?_eq_none (by simp; omega), List.getElem?_eq_none (by omega)]

theorem div_mod_between {sec blk q : Nat} (h1 : blk * sec ≤ q)
    (h2 : q < blk * sec + sec) : q / sec = blk ∧ q % sec = q - blk * sec := by
  have hsec : 0 < sec := by omega
  have hd : q / sec = blk :=
    Nat.div_eq_of_lt_le h1 (by rw [Nat.succ_mul]; omega)
  have hm := Nat.mod_add_div q sec
  rw [hd] at hm
  have hcomm : sec * blk = blk * sec := Nat.mul_comm sec blk
  exact ⟨hd, by omega⟩

theorem div_mod_of_lt {sec r : Nat} (blk : Nat) (hr : r < sec) :
    (blk * sec + r) / sec = blk ∧ (blk * sec + r) % sec = r := by
  have h1 : blk * sec ≤ blk * sec + r := Nat.le_add_right _ _
  have h2 : blk * sec + r < blk * sec + sec := by omega
  have h := div_mod_between h1 h2
  exact ⟨h.1, by omega⟩

/-! ### Facts about the medium model -/

theorem sector_length {d : Disk} (hwf : diskWF d) (blk : Nat) :
    (d.data.getD blk (List.replicate d.sec 0)).length = d.sec := by
  by_cases h : blk < d.data.length
  · rw [List.getD_eq_getElem?_getD, List.getElem?_eq_getElem h]
    exact hwf _ (List.getElem_mem h)
  · rw [List.getD_eq_getElem?_getD, List.getElem?_eq_none (by omega)]
    simp

theorem mediumByte_sector {d : Disk} {r : Nat} (blk : Nat) (hr : r < d.sec) :
    mediumByte d (blk * d.sec + r) =
      (d.data.getD blk (List.replicate d.sec 0)).getD r 0 := by
  unfold mediumByte
  obtain ⟨h1, h2⟩ := div_mod_of_lt blk hr
  rw [h1, h2]

theorem specRead_length (d : Disk) (pos len : Nat) : (specRead d pos len).length = len := by
  simp [specRead]

theorem specRead_split (d : Disk) (pos a b : Nat) :
    specRead d pos (a + b) = specRead d pos a ++ specRead d (pos + a) b := by
  unfold specRead
  rw [List.range_add, List.map_append, List.map_map]
  congr 1
  apply List.map_congr_left
  intro j _
  show mediumByte d (pos + (a + j)) = mediumByte d (pos + a + j)
  congr 1
  omega

theorem specRead_chunk {d : Disk} (hwf : diskWF d) {off chunk : Nat} (blk : Nat)
    (hoc : off + chunk ≤ d.sec) :
    ((d.data.getD blk (List.replicate d.sec 0)).drop off).take chunk =
      specRead d (blk * d.sec + off) chunk := by
  apply List.ext_getElem
  · rw [List.length_take, List.length_drop, sector_length hwf, specRead_length]
    omega
  · intro i h1 h2
    have hi : i < chunk := by
      rw [List.length_take, List.length_drop, sector_length hwf] at h1; omega
    have hlt : off + i < d.sec := by omega
    rw [List.getElem_take, List.getElem_drop]
    have hrhs : (specRead d (blk * d.sec + off) chunk)[i] =
        mediumByte d (blk * d.sec + off + i) := by
      simp [specRead]
    rw [hrhs, Nat.add_assoc, mediumByte_sector blk hlt]
    exact (getD_eq_getElem_of_lt _ _ _ (by rw [sector_length hwf]; omega)).symm

/-! ### Facts about the touched-sector count -/

theorem touchedCnt_pos {off len sec : Nat} (hlen : 0 < len) (hsec : 0 < sec) :
    0 < touchedCnt off len sec := by
  unfold touchedCnt
  exact (Nat.le_div_iff_mul_le hsec).mpr (by omega)

theorem touchedCnt_single {off len sec : Nat} (hlen : 0 < len) (hle : off + len ≤ sec) :
    touchedCnt off len sec = 1 := by
  unfold touchedCnt
  apply Nat.div_eq_of_lt_le
  · rw [Nat.one_mul]; omega
  · rw [Nat.succ_mul, Nat.one_mul]; omega

theorem touchedCnt_shift {off len sec : Nat} (hoff : off < sec) (hlt : sec - off < len) :
    touchedCnt off len sec = touchedCnt 0 (len - (sec - off)) sec + 1 := by
  unfold touchedCnt
  have hsec : 0 < sec := by omega
  have h1 : off + len + sec - 1 = (0 + (len - (sec - off)) + sec - 1) + sec := by omega
  rw [h1, Nat.add_div_right _ hsec]

theorem readMedOps_zero (blk : Nat) : readMedOps blk 0 = [] := by
  simp [readMedOps]

theorem readMedOps_succ (blk n : Nat) :
    readMedOps blk (n + 1) = MedOp.read blk :: readMedOps (blk + 1) n := by
  unfold readMedOps
  rw [List.range_succ_eq_map, List.map_cons, List.map_map]
  simp only [Nat.add_zero]
  congr 1
  apply List.map_congr_left
  intro i _
  show MedOp.read (blk + Nat.succ i) = MedOp.read (blk + 1 + i)
  congr 1
  omega

/-! ### The read path -/

theorem onReadLoop_zero (d : Disk) (fuel blk off : Nat) :
    onReadLoop d fuel 0 blk off = (some [], []) := by
  cases fuel <;> rfl

theorem onReadLoop_step {d : Disk} {blk : Nat} (fuel r off : Nat) {tmp : List Nat}
    (hread : readRAW d blk = some tmp) :
    onReadLoop d (fuel + 1) (r + 1) blk off =
      ((onReadLoop d fuel (r + 1 - min (r + 1) (d.sec - off)) (blk + 1) 0).1.map
          (fun tl => (tmp.drop off).take (min (r + 1) (d.sec - off)) ++ tl),
        MedOp.read blk ::
          (onReadLoop d fuel (r + 1 - min (r + 1) (d.sec - off)) (blk + 1) 0).2) := by
  rw [onReadLoop, hread]

theorem onReadLoop_readfail {d : Disk} {blk : Nat} (fuel r off : Nat)
    (hread : readRAW d blk = none) :
    onReadLoop d (fuel + 1) (r + 1) blk off = (none, [MedOp.read blk]) := by
  rw [onReadLoop, hread]

theorem onReadLoop_ok (d : Disk) (hwf : diskWF d) :
    ∀ fuel remain blk off, remain ≤ fuel → 0 < remain → off < d.sec →
      (∀ i < touchedCnt off remain d.sec, blk + i ∉ d.readFail) →
      onReadLoop d fuel remain blk off =
        (some (specRead d (blk * d.sec + off) remain),
          readMedOps blk (touchedCnt off remain d.sec)) := by
  intro fuel
  induction fuel with
  | zero => intro remain blk off h1 h2 _ _; omega
  | succ fuel ih =>
    intro remain blk off hle hpos hoff hok
    have hsec : 0 < d.sec := by omega
    obtain ⟨r, rfl⟩ : ∃ r, remain = r + 1 := ⟨remain - 1, by omega⟩
    have hcntpos : 0 < touchedCnt off (r + 1) d.sec := touchedCnt_pos hpos hsec
    have hr0 : blk ∉ d.readFail := by simpa using hok 0 hcntpos
    have hread : readRAW d blk = some (d.data.getD blk (List.replicate d.sec 0)) := by
      simp [readRAW, hr0]
    rw [onReadLoop_step fuel r off hread]
    by_cases hend : r + 1 ≤ d.sec - off
    · have hchunk : min (r + 1) (d.sec - off) = r + 1 := by omega
      rw [hchunk]
      have hrem : r + 1 - (r + 1) = 0 := by omega
      rw [hrem, onReadLoop_zero]
      have hcnt : touchedCnt off (r + 1) d.sec = 1 := touchedCnt_single hpos (by omega)
      rw [hcnt, readMedOps_succ, readMedOps_zero,
        specRead_chunk hwf blk (by omega : off + (r + 1) ≤ d.sec)]
      simp
    · have hchunk : min (r + 1) (d.sec - off) = d.sec - off := by omega
      rw [hchunk]
      have hshift := touchedCnt_shift hoff (by omega : d.sec - off < r + 1)
      rw [ih (r + 1 - (d.sec - off)) (blk + 1) 0 (by omega) (by omega) hsec ?_]
      · have hsplit : r + 1 = (d.sec - off) + (r + 1 - (d.sec - off)) := by omega
        have hpos2 : blk * d.sec + off + (d.sec - off) = (blk + 1) * d.sec := by
          rw [Nat.succ_mul]; omega
        rw [hshift, readMedOps_succ]
        have hlenrw : specRead d (blk * d.sec + off) (r + 1) =
            specRead d (blk * d.sec + off) (d.sec - off) ++
              specRead d ((blk + 1) * d.sec) (r + 1 - (d.sec - off)) := by
          conv_lhs => rw [hsplit]
          rw [specRead_split, hpos2]
        rw [hlenrw, ← specRead_chunk hwf blk (by omega : off + (d.sec - off) ≤ d.sec)]
        simp
      · intro i hi
        have h2 := hok (i + 1) (by rw [hshift]; omega)
        have heq : blk + (i + 1) = blk + 1 + i := by omega
        rwa [heq] at h2

/-- C1: a read of length > 0 at byte offset below the sector size, on a
well-formed medium whose touched sector reads all succeed, walks the
sectors from startSector issuing exactly one raw read per touched sector
(ceil((byteOffset + length) / sectorSize) reads, in ascending order) and
returns exactly length bytes equal to the medium's contents starting at
absolute byte position startSector * sectorSize + byteOffset. -/
theorem onRead_correct (d : Disk) (lba off len : Nat) (hwf : diskWF d)
    (hoff : off < d.sec) (hlen : 0 < len)
    (hok : ∀ i < touchedCnt off len d.sec, lba + i ∉ d.readFail) :
    onRead d lba off len =
      (some (specRead d (lba * d.sec + off) len),
        readMedOps lba (touchedCnt off len d.sec)) ∧
    (specRead d (lba * d.sec + off) len).length = len := by
  refine ⟨?_, specRead_length d _ len⟩
  unfold onRead
  rw [if_neg (by omega)]
  exact onReadLoop_ok d hwf len len lba off le_rfl hlen hoff hok

/-- The medium of the specification's read scenario: sector size 512,
four stored sectors. -/
def demoDisk : Disk :=
  { sec := 512, data := List.replicate 4 (List.replicate 512 7),
    readFail := [], writeFail := [] }

theorem onRead_correct_witness :
    diskWF demoDisk ∧ 100 < demoDisk.sec ∧ (0:Nat) < 1500 ∧
    touchedCnt 100 1500 demoDisk.sec = 4 ∧
    (onRead demoDisk 0 100 1500 =
        (some (specRead demoDisk (0 * demoDisk.sec + 100) 1500),
          readMedOps 0 (touchedCnt 100 1500 demoDisk.sec)) ∧
      (specRead demoDisk (0 * demoDisk.sec + 100) 1500).length = 1500) := by
  have hwf : diskWF demoDisk := by decide
  exact ⟨hwf, by decide, by decide, by decide,
    onRead_correct demoDisk 0 100 1500 hwf (by decide) (by decide) (by decide)⟩

/-! ### Return values are all-or-nothing -/

theorem readRAW_some_eq {d : Disk} {blk : Nat} {tmp : List Nat}
    (h : readRAW d blk = some tmp) :
    tmp = d.data.getD blk (List.replicate d.sec 0) := by
  unfold readRAW at h
  split at h
  · exact absurd h (by simp)
  · exact (Option.some.inj h).symm

theorem onReadLoop_some_length (d : Disk) (hwf : diskWF d) :
    ∀ fuel remain blk off out ops, off < d.sec →
      onReadLoop d fuel remain blk off = (some out, ops) → out.length = remain := by
  intro fuel
  induction fuel with
  | zero =>
    intro remain blk off out ops hoff h
    cases remain with
    | zero =>
      rw [onReadLoop_zero] at h
      simp [Prod.ext_iff] at h
      simp [← h.1]
    | succ r => simp [onReadLoop] at h
  | succ fuel ih =>
    intro remain blk off out ops hoff h
    cases remain with
    | zero =>
      rw [onReadLoop_zero] at h
      simp [Prod.ext_iff] at h
      simp [← h.1]
    | succ r =>
      cases hread : readRAW d blk with
      | none =>
        rw [onReadLoop_readfail fuel r off hread] at h
        simp [Prod.ext_iff] at h
      | some tmp =>
        rw [onReadLoop_step fuel r off hread] at h
        rcases hrec : onReadLoop d fuel (r + 1 - min (r + 1) (d.sec - off)) (blk + 1) 0
          with ⟨o, tr⟩
        rw [hrec] at h
        cases o with
        | none => simp [Prod.ext_iff] at h
        | some tl =>
          simp only [Option.map_some'] at h
          injection h with h1 h2
          injection h1 with h1
          have htl : tl.length = r + 1 - min (r + 1) (d.sec - off) :=
            ih _ _ _ tl tr (by omega) hrec
          rw [← h1, List.length_append, List.length_take, List.length_drop,
            readRAW_some_eq hread, sector_length hwf, htl]
          omega

/-- C10: the translator entry points are all-or-nothing at the
return-value level: onRead and onWrite return either -1 (on any
failure, including zero length and zero sector size) or exactly the
requested byte count, never a partial positive count; on a successful
read the assembled output holds exactly bufsize bytes. -/
theorem translator_all_or_nothing (d : Disk) (lba off n : Nat) (src : List Nat)
    (hwf : diskWF d) (hoff : off < d.sec ∨ d.sec = 0) :
    (onReadRet d lba off n = -1 ∨
      (onReadRet d lba off n = (n : Int) ∧
        ∃ out, (onRead d lba off n).1 = some out ∧ out.length = n)) ∧
    (n = 0 → onReadRet d lba off n = -1) ∧
    (d.sec = 0 → onReadRet d lba off n = -1) ∧
    (onWriteRet d lba off src = -1 ∨ onWriteRet d lba off src = (src.length : Int)) ∧
    (src.length = 0 → onWriteRet d lba off src = -1) ∧
    (d.sec = 0 → onWriteRet d lba off src = -1) := by
  refine ⟨?_, ?_, ?_, ?_, ?_, ?_⟩
  · unfold onReadRet
    rcases hres : (onRead d lba off n).1 with _ | out
    · left; rfl
    · right
      refine ⟨rfl, out, rfl, ?_⟩
      unfold onRead at hres
      by_cases hg : d.sec = 0 ∨ n = 0
      · rw [if_pos hg] at hres; simp at hres
      · rw [if_neg hg] at hres
        have hoff' : off < d.sec := by
          rcases hoff with h | h
          · exact h
          · exact absurd (Or.inl h) hg
        rcases heq : onReadLoop d n n lba off with ⟨o, tr⟩
        rw [heq] at hres
        simp only at hres
        subst hres
        exact onReadLoop_some_length d hwf n n lba off out tr hoff' heq
  · intro h
    subst h
    simp [onReadRet, onRead]
  · intro h
    unfold onReadRet onRead
    rw [if_pos (Or.inl h)]
  · unfold onWriteRet
    by_cases h : (onWrite d lba off src).1 <;> simp [h]
  · intro h
    unfold onWriteRet onWrite
    rw [if_pos (Or.inr h)]
    rfl
  · intro h
    unfold onWriteRet onWrite
    rw [if_pos (Or.inl h)]
    rfl

theorem translator_all_or_nothing_witness :
    diskWF demoDisk ∧ (100 < demoDisk.sec ∨ demoDisk.sec = 0) ∧
    ((onReadRet demoDisk 0 100 1500 = -1 ∨
        (onReadRet demoDisk 0 100 1500 = (1500 : Int) ∧
          ∃ out, (onRead demoDisk 0 100 1500).1 = some out ∧ out.length = 1500)) ∧
      ((1500:Nat) = 0 → onReadRet demoDisk 0 100 1500 = -1) ∧
      (demoDisk.sec = 0 → onReadRet demoDisk 0 100 1500 = -1) ∧
      (onWriteRet demoDisk 0 100 [3, 4] = -1 ∨
        onWriteRet demoDisk 0 100 [3, 4] = (([3, 4] : List Nat).length : Int)) ∧
      (([3, 4] : List Nat).length = 0 → onWriteRet demoDisk 0 100 [3, 4] = -1) ∧
      (demoDisk.sec = 0 → onWriteRet demoDisk 0 100 [3, 4] = -1)) := by
  have hwf : diskWF demoDisk := by decide
  exact ⟨hwf, Or.inl (by decide),
    translator_all_or_nothing demoDisk 0 100 1500 [3, 4] hwf (Or.inl (by decide))⟩

/-! ### The write path: splice-buffer and arithmetic helpers -/

theorem getD_take_of_lt {α : Type} (l : List α) {n i : Nat} (x : α) (h : i < n) :
    (l.take n).getD i x = l.getD i x := by
  by_cases hl : i < l.length
  · rw [getD_eq_getElem_of_lt _ _ _ (by simp; omega), getD_eq_getElem_of_lt _ _ _ hl,
      List.getElem_take]
  · rw [List.getD_eq_default _ _ (by simp; omega), List.getD_eq_default _ _ (by omega)]

theorem spliceBuf_length {tmp src2 : List Nat} {sec off chunk : Nat}
    (htmp : tmp.length = sec) (hchunk : chunk ≤ src2.length) (hoc : off + chunk ≤ sec) :
    (tmp.take off ++ src2.take chunk ++ tmp.drop (off + chunk)).length = sec := by
  rw [List.length_append, List.length_append, List.length_take, List.length_take,
    List.length_drop, htmp]
  omega

theorem spliceBuf_getD {tmp src2 : List Nat} {sec off chunk : Nat} (r : Nat)
    (htmp : tmp.length = sec) (hchunk : chunk ≤ src2.length) (hoc : off + chunk ≤ sec) :
    (tmp.take off ++ src2.take chunk ++ tmp.drop (off + chunk)).getD r 0 =
      if r < off then tmp.getD r 0
      else if r < off + chunk then src2.getD (r - off) 0
      else tmp.getD r 0 := by
  have hto : (tmp.take off).length = off := by rw [List.length_take]; omega
  have hAB : (tmp.take off ++ src2.take chunk).length = off + chunk := by
    rw [List.length_append, List.length_take, List.length_take]; omega
  by_cases h1 : r < off
  · rw [if_pos h1, List.getD_append _ _ _ _ (by omega),
      List.getD_append _ _ _ _ (by omega), getD_take_of_lt _ _ h1]
  · rw [if_neg h1]
    by_cases h2 : r < off + chunk
    · rw [if_pos h2, List.getD_append _ _ _ _ (by omega),
        List.getD_append_right _ _ _ _ (by omega), hto,
        getD_take_of_lt _ _ (by omega)]
    · rw [if_neg h2, List.getD_append_right _ _ _ _ (by omega), hAB, getD_drop]
      congr 1
      omega

theorem div_eq_imp_range {sec blk q : Nat} (hsec : 0 < sec) (h : q / sec = blk) :
    blk * sec ≤ q ∧ q < blk * sec + sec := by
  have hm := Nat.mod_add_div q sec
  have hlt := Nat.mod_lt q hsec
  rw [h] at hm
  have hc : sec * blk = blk * sec := Nat.mul_comm sec blk
  omega

theorem mediumByte_set {d : Disk} {blk : Nat} {buf : List Nat} (q : Nat)
    (hblk : blk < d.data.length) :
    mediumByte { d with data := d.data.set blk buf } q =
      if q / d.sec = blk then buf.getD (q % d.sec) 0 else mediumByte d q := by
  show ((d.data.set blk buf).getD (q / d.sec) (List.replicate d.sec 0)).getD (q % d.sec) 0 =
    if q / d.sec = blk then buf.getD (q % d.sec) 0 else mediumByte d q
  by_cases h : q / d.sec = blk
  · rw [if_pos h, h, getD_set_self _ _ _ _ hblk]
  · rw [if_neg h]
    unfold mediumByte
    rw [getD_set_ne _ _ _ (fun he => h he.symm)]

theorem diskWF_set {d : Disk} (hwf : diskWF d) {buf : List Nat} (blk : Nat)
    (hbuf : buf.length = d.sec) : diskWF { d with data := d.data.set blk buf } := by
  intro s hs
  rcases List.mem_or_eq_of_mem_set hs with h | h
  · exact hwf s h
  · rw [h]; exact hbuf

/-! ### Shift laws for the predicted write trace -/

theorem rmwAt_zero (off len sec : Nat) :
    rmwAt off len sec 0 = (decide (off ≠ 0) || decide (len < sec)) := by
  simp [rmwAt, remAt]

theorem remAt_shift {off len sec : Nat} (hoff : off < sec) (hlt : sec - off < len) (i : Nat) :
    remAt off len sec (i + 1) = remAt 0 (len - (sec - off)) sec i := by
  unfold remAt
  rcases Nat.eq_zero_or_pos i with h | h
  · subst h
    simp
  · rw [if_neg (by omega), if_neg (by omega)]
    have h1 : (i + 1) * sec = i * sec + sec := Nat.succ_mul i sec
    omega

theorem rmwAt_shift {off len sec : Nat} (hoff : off < sec) (hlt : sec - off < len) (i : Nat) :
    rmwAt off len sec (i + 1) = rmwAt 0 (len - (sec - off)) sec i := by
  unfold rmwAt
  rw [remAt_shift hoff hlt]
  rcases Nat.eq_zero_or_pos i with h | h
  · subst h; simp
  · rw [if_neg (by omega), if_neg (by omega)]

theorem sectorWOps_shift {off len sec : Nat} (blk : Nat) (hoff : off < sec)
    (hlt : sec - off < len) (i : Nat) :
    sectorWOps off len sec blk (i + 1) = sectorWOps 0 (len - (sec - off)) sec (blk + 1) i := by
  unfold sectorWOps
  rw [rmwAt_shift hoff hlt]
  have h : blk + (i + 1) = blk + 1 + i := by omega
  rw [h]

theorem flatten_map_range_succ {α : Type} (f : Nat → List α) (n : Nat) :
    ((List.range (n + 1)).map f).flatten =
      f 0 ++ ((List.range n).map (fun i => f (i + 1))).flatten := by
  rw [List.range_succ_eq_map, List.map_cons, List.map_map, List.flatten_cons]
  rfl

theorem writeMedOps_single {off len sec blk : Nat} (hlen : 0 < len) (hle : off + len ≤ sec) :
    writeMedOps off len sec blk = sectorWOps off len sec blk 0 := by
  unfold writeMedOps
  rw [touchedCnt_single hlen hle]
  simp [List.range_succ]

theorem writeMedOps_shift {off len sec blk : Nat} (hoff : off < sec) (hlt : sec - off < len) :
    writeMedOps off len sec blk =
      sectorWOps off len sec blk 0 ++ writeMedOps 0 (len - (sec - off)) sec (blk + 1) := by
  unfold writeMedOps
  rw [touchedCnt_shift hoff hlt, flatten_map_range_succ]
  congr 1
  congr 1
  apply List.map_congr_left
  intro i _
  exact sectorWOps_shift blk hoff hlt i

/-! ### Unfolding lemmas for the write loop -/

theorem onWriteLoop_nil (d : Disk) (fuel blk off : Nat) :
    onWriteLoop d fuel blk off [] = (true, d, []) := by
  cases fuel <;> rfl

theorem onWriteLoop_readfail {d : Disk} {blk off a : Nat} {src : List Nat} (fuel : Nat)
    (hrmw : (decide (off ≠ 0) || decide ((a :: src).length < d.sec)) = true)
    (hread : readRAW d blk = none) :
    onWriteLoop d (fuel + 1) blk off (a :: src) = (false, d, [MedOp.read blk]) := by
  rw [onWriteLoop]
  simp only [hrmw, if_true, hread]

theorem onWriteLoop_writefail {d : Disk} {blk off a : Nat} {src : List Nat}
    {tmp : List Nat} (fuel : Nat)
    (hread : (if (decide (off ≠ 0) || decide ((a :: src).length < d.sec)) then readRAW d blk
        else some (List.replicate d.sec 0)) = some tmp)
    (hwrite : writeRAW d blk
        (tmp.take off ++ (a :: src).take (min (a :: src).length (d.sec - off)) ++
          tmp.drop (off + min (a :: src).length (d.sec - off))) = none) :
    onWriteLoop d (fuel + 1) blk off (a :: src) =
      (false, d,
        (if (decide (off ≠ 0) || decide ((a :: src).length < d.sec)) then [MedOp.read blk]
          else []) ++ [MedOp.write blk]) := by
  rw [onWriteLoop]
  simp only [hread, hwrite]

theorem onWriteLoop_step {d d2 : Disk} {blk off a : Nat} {src : List Nat}
    {tmp : List Nat} (fuel : Nat)
    (hread : (if (decide (off ≠ 0) || decide ((a :: src).length < d.sec)) then readRAW d blk
        else some (List.replicate d.sec 0)) = some tmp)
    (hwrite : writeRAW d blk
        (tmp.take off ++ (a :: src).take (min (a :: src).length (d.sec - off)) ++
          tmp.drop (off + min (a :: src).length (d.sec - off))) = some d2) :
    onWriteLoop d (fuel + 1) blk off (a :: src) =
      ((onWriteLoop d2 fuel (blk + 1) 0
          ((a :: src).drop (min (a :: src).length (d.sec - off)))).1,
        (onWriteLoop d2 fuel (blk + 1) 0
          ((a :: src).drop (min (a :: src).length (d.sec - off)))).2.1,
        (if (decide (off ≠ 0) || decide ((a :: src).length < d.sec)) then [MedOp.read blk]
            else []) ++ MedOp.write blk ::
          (onWriteLoop d2 fuel (blk + 1) 0
            ((a :: src).drop (min (a :: src).length (d.sec - off)))).2.2) := by
  rw [onWriteLoop]
  simp only [hread, hwrite]

/-! ### Master theorem: a fully successful write walk -/

theorem onWriteLoop_ok :
    ∀ (fuel : Nat) (src : List Nat) (blk off : Nat) (d : Disk),
      src.length ≤ fuel → 0 < src.length → off < d.sec → diskWF d →
      blk + touchedCnt off src.length d.sec ≤ d.data.length →
      (∀ i < touchedCnt off src.length d.sec,
        blk + i ∉ d.readFail ∧ blk + i ∉ d.writeFail) →
      ∃ d', onWriteLoop d fuel blk off src =
          (true, d', writeMedOps off src.length d.sec blk) ∧
        d'.sec = d.sec ∧ d'.data.length = d.data.length ∧
        d'.readFail = d.readFail ∧ d'.writeFail = d.writeFail ∧ diskWF d' ∧
        (∀ j < src.length, mediumByte d' (blk * d.sec + off + j) = src.getD j 0) ∧
        (∀ q, q < blk * d.sec + off ∨ blk * d.sec + off + src.length ≤ q →
          mediumByte d' q = mediumByte d q) := by
  intro fuel
  induction fuel with
  | zero => intro src blk off d h1 h2 _ _ _ _; omega
  | succ fuel ih =>
    intro src blk off d hle hpos hoff hwf hbound hok
    obtain ⟨a, src', rfl⟩ : ∃ a s, src = a :: s := by
      cases src with
      | nil => simp at hpos
      | cons a s => exact ⟨a, s, rfl⟩
    have hsec : 0 < d.sec := by omega
    have hlen1 : 0 < (a :: src').length := by simp
    have hcntpos : 0 < touchedCnt off (a :: src').length d.sec := touchedCnt_pos hlen1 hsec
    have hok0 := hok 0 hcntpos
    have hrnf : blk ∉ d.readFail := by simpa using hok0.1
    have hwnf : blk ∉ d.writeFail := by simpa using hok0.2
    have hblkb : blk < d.data.length := by omega
    have hreadx : ∃ tmp, (if (decide (off ≠ 0) || decide ((a :: src').length < d.sec)) then
          readRAW d blk else some (List.replicate d.sec 0)) = some tmp ∧
        tmp.length = d.sec ∧
        ((off ≠ 0 ∨ (a :: src').length < d.sec) →
          tmp = d.data.getD blk (List.replicate d.sec 0)) := by
      by_cases hb : (off ≠ 0 ∨ (a :: src').length < d.sec)
      · refine ⟨d.data.getD blk (List.replicate d.sec 0), ?_, sector_length hwf blk,
          fun _ => rfl⟩
        rw [if_pos (by simpa using hb)]
        simp [readRAW, hrnf]
      · exact ⟨List.replicate d.sec 0, by rw [if_neg (by simpa using hb)], by simp,
          fun h => absurd h hb⟩
    obtain ⟨tmp, hread, htmplen, htmpval⟩ := hreadx
    set chunk := min (a :: src').length (d.sec - off) with hchunkDef
    have hchle : chunk ≤ (a :: src').length := by omega
    have hchpos : 0 < chunk := by omega
    have hoc : off + chunk ≤ d.sec := by omega
    set buf := tmp.take off ++ (a :: src').take chunk ++ tmp.drop (off + chunk) with hbufDef
    have hbuflen : buf.length = d.sec := spliceBuf_length htmplen hchle hoc
    have hwrite : writeRAW d blk buf = some { d with data := d.data.set blk buf } := by
      simp [writeRAW, hwnf]
    set d2 : Disk := { d with data := d.data.set blk buf } with hd2Def
    have hd2sec : d2.sec = d.sec := rfl
    have hd2len : d2.data.length = d.data.length := by
      show (d.data.set blk buf).length = d.data.length
      simp
    have hd2rf : d2.readFail = d.readFail := rfl
    have hd2wfl : d2.writeFail = d.writeFail := rfl
    have hd2wf : diskWF d2 := diskWF_set hwf blk hbuflen
    have hd2byte : ∀ q, mediumByte d2 q =
        if q / d.sec = blk then buf.getD (q % d.sec) 0 else mediumByte d q :=
      fun q => mediumByte_set q hblkb
    rw [onWriteLoop_step fuel hread hwrite, ← hchunkDef]
    by_cases hsingle : (a :: src').length ≤ d.sec - off
    · -- the request ends inside this sector
      have hchunkeq : chunk = (a :: src').length := by omega
      have hdrop : (a :: src').drop chunk = [] := by
        rw [hchunkeq]; exact List.drop_length _
      rw [hdrop, onWriteLoop_nil]
      refine ⟨d2, ?_, hd2sec, hd2len, hd2rf, hd2wfl, hd2wf, ?_, ?_⟩
      · rw [writeMedOps_single hlen1 (by omega)]
        unfold sectorWOps
        rw [rmwAt_zero]
        simp
      · intro j hj
        rw [hd2byte, Nat.add_assoc]
        have hdm := div_mod_of_lt blk (show off + j < d.sec by omega)
        rw [if_pos hdm.1, hdm.2, hbufDef, spliceBuf_getD _ htmplen hchle hoc,
          if_neg (by omega), if_pos (by omega)]
        congr 1
        omega
      · intro q hq
        rw [hd2byte q]
        by_cases hdiv : q / d.sec = blk
        · rw [if_pos hdiv]
          obtain ⟨hlo, hhi⟩ := div_eq_imp_range hsec hdiv
          have hmod : q % d.sec = q - blk * d.sec := (div_mod_between hlo hhi).2
          rcases hq with hq | hq
          · have hoffne : off ≠ 0 := by omega
            rw [hbufDef, spliceBuf_getD _ htmplen hchle hoc, hmod,
              if_pos (by omega), htmpval (Or.inl hoffne)]
            have hqe : q = blk * d.sec + (q - blk * d.sec) := by omega
            conv_rhs => rw [hqe]
            rw [mediumByte_sector blk (by omega)]
          · rw [hbufDef, spliceBuf_getD _ htmplen hchle hoc, hmod,
              if_neg (by omega), if_neg (by omega)]
            have htmp2 : tmp = d.data.getD blk (List.replicate d.sec 0) := by
              by_cases hoff0 : off = 0
              · by_cases hlen2 : (a :: src').length < d.sec
                · exact htmpval (Or.inr hlen2)
                · exfalso; omega
              · exact htmpval (Or.inl hoff0)
            rw [htmp2]
            have hqe : q = blk * d.sec + (q - blk * d.sec) := by omega
            conv_rhs => rw [hqe]
            rw [mediumByte_sector blk (by omega)]
        · rw [if_neg hdiv]
    · -- full first sector, recurse on the rest
      have hchunkeq : chunk = d.sec - off := by omega
      have hlt : d.sec - off < (a :: src').length := by omega
      have hdl : ((a :: src').drop chunk).length = (a :: src').length - chunk := by simp
      have hshift := touchedCnt_shift hoff hlt
      have hb2 : (blk + 1) + touchedCnt 0 ((a :: src').drop chunk).length d2.sec ≤
          d2.data.length := by
        rw [hd2sec, hd2len, hdl, hchunkeq]
        omega
      have hok2 : ∀ i < touchedCnt 0 ((a :: src').drop chunk).length d2.sec,
          (blk + 1) + i ∉ d2.readFail ∧ (blk + 1) + i ∉ d2.writeFail := by
        intro i hi
        rw [hd2rf, hd2wfl]
        rw [hd2sec, hdl, hchunkeq] at hi
        have h2 := hok (i + 1) (by rw [hshift]; omega)
        have he : blk + (i + 1) = blk + 1 + i := by omega
        rwa [he] at h2
      obtain ⟨d3, hloop3, hsec3, hlen3, hrf3, hwfl3, hwf3, hwrit3, hframe3⟩ :=
        ih ((a :: src').drop chunk) (blk + 1) 0 d2 (by rw [hdl]; omega)
          (by rw [hdl]; omega) (by rw [hd2sec]; omega) hd2wf hb2 hok2
      rw [hloop3]
      have hmul : (blk + 1) * d.sec = blk * d.sec + d.sec := Nat.succ_mul blk d.sec
      refine ⟨d3, ?_, hsec3.trans hd2sec, hlen3.trans hd2len, hrf3.trans hd2rf,
        hwfl3.trans hd2wfl, hwf3, ?_, ?_⟩
      · rw [writeMedOps_shift hoff hlt]
        unfold sectorWOps
        rw [rmwAt_zero]
        have hW : writeMedOps 0 ((a :: src').drop chunk).length d2.sec (blk + 1) =
            writeMedOps 0 ((a :: src').length - (d.sec - off)) d.sec (blk + 1) := by
          rw [hd2sec, hdl, hchunkeq]
        rw [hW]
        simp
      · intro j hj
        by_cases hjc : j < chunk
        · have hq : blk * d.sec + off + j < (blk + 1) * d2.sec + 0 := by
            rw [hd2sec, hmul]; omega
          rw [hframe3 (blk * d.sec + off + j) (Or.inl hq), hd2byte, Nat.add_assoc]
          have hdm := div_mod_of_lt blk (show off + j < d.sec by omega)
          rw [if_pos hdm.1, hdm.2, hbufDef, spliceBuf_getD _ htmplen hchle hoc,
            if_neg (by omega), if_pos (by omega)]
          congr 1
          omega
        · have hj2 : j - chunk < ((a :: src').drop chunk).length := by rw [hdl]; omega
          have hw := hwrit3 (j - chunk) hj2
          have hpose : (blk + 1) * d2.sec + 0 + (j - chunk) = blk * d.sec + off + j := by
            rw [hd2sec, hmul]; omega
          rw [hpose] at hw
          rw [hw, getD_drop]
          congr 1
          omega
      · intro q hq
        have hfr3 : mediumByte d3 q = mediumByte d2 q := by
          apply hframe3
          rcases hq with hq | hq
          · left; rw [hd2sec, hmul]; omega
          · right; rw [hd2sec, hmul, hdl]; omega
        rw [hfr3, hd2byte]
        by_cases hdiv : q / d.sec = blk
        · rw [if_pos hdiv]
          obtain ⟨hlo, hhi⟩ := div_eq_imp_range hsec hdiv
          have hmod : q % d.sec = q - blk * d.sec := (div_mod_between hlo hhi).2
          rcases hq with hq | hq
          · have hoffne : off ≠ 0 := by omega
            rw [hbufDef, spliceBuf_getD _ htmplen hchle hoc, hmod,
              if_pos (by omega), htmpval (Or.inl hoffne)]
            have hqe : q = blk * d.sec + (q - blk * d.sec) := by omega
            conv_rhs => rw [hqe]
            rw [mediumByte_sector blk (by omega)]
          · exfalso; omega
        · rw [if_neg hdiv]

/-- C2: a write whose touched sector is not fully covered (first sector
with nonzero byte offset, or fewer than a full sector's bytes left)
gets read-modify-write: its predicted per-sector trace is exactly one
read of that sector immediately followed by its write; the new bytes
land at the requested positions and every medium byte outside the
written range, including the head and tail of boundary sectors, is
unchanged. -/
theorem onWrite_rmw_frame (d : Disk) (lba off : Nat) (src : List Nat)
    (hwf : diskWF d) (hoff : off < d.sec) (hpos : 0 < src.length)
    (hbound : lba + touchedCnt off src.length d.sec ≤ d.data.length)
    (hok : ∀ i < touchedCnt off src.length d.sec,
      lba + i ∉ d.readFail ∧ lba + i ∉ d.writeFail) :
    ∃ d', onWrite d lba off src = (true, d', writeMedOps off src.length d.sec lba) ∧
      (∀ i < touchedCnt off src.length d.sec, rmwAt off src.length d.sec i = true →
        sectorWOps off src.length d.sec lba i =
          [MedOp.read (lba + i), MedOp.write (lba + i)]) ∧
      (∀ j < src.length, mediumByte d' (lba * d.sec + off + j) = src.getD j 0) ∧
      (∀ q, q < lba * d.sec + off ∨ lba * d.sec + off + src.length ≤ q →
        mediumByte d' q = mediumByte d q) := by
  obtain ⟨d', h1, _, _, _, _, _, h7, h8⟩ :=
    onWriteLoop_ok src.length src lba off d le_rfl hpos hoff hwf hbound hok
  refine ⟨d', ?_, ?_, h7, h8⟩
  · unfold onWrite
    rw [if_neg (by omega)]
    exact h1
  · intro i _ hr
    unfold sectorWOps
    rw [hr]
    simp

/-- The medium of the specification's write scenario: sector size 512,
1000 stored sectors. -/
def demoDisk1000 : Disk :=
  { sec := 512, data := List.replicate 1000 (List.replicate 512 0),
    readFail := [], writeFail := [] }

theorem demoDisk1000_wf : diskWF demoDisk1000 := by
  intro s hs
  rcases List.mem_replicate.mp hs with ⟨-, rfl⟩
  simp [demoDisk1000]

theorem demoDisk1000_len : demoDisk1000.data.length = 1000 := by
  simp [demoDisk1000]

theorem onWrite_rmw_frame_witness :
    diskWF demoDisk1000 ∧ 10 < demoDisk1000.sec ∧
    (0:Nat) < ([99] : List Nat).length ∧
    3 + touchedCnt 10 ([99] : List Nat).length demoDisk1000.sec ≤
      demoDisk1000.data.length ∧
    writeMedOps 10 ([99] : List Nat).length demoDisk1000.sec 3 =
      [MedOp.read 3, MedOp.write 3] ∧
    (∃ d', onWrite demoDisk1000 3 10 [99] =
        (true, d', writeMedOps 10 ([99] : List Nat).length demoDisk1000.sec 3) ∧
      (∀ i < touchedCnt 10 ([99] : List Nat).length demoDisk1000.sec,
        rmwAt 10 ([99] : List Nat).length demoDisk1000.sec i = true →
        sectorWOps 10 ([99] : List Nat).length demoDisk1000.sec 3 i =
          [MedOp.read (3 + i), MedOp.write (3 + i)]) ∧
      (∀ j < ([99] : List Nat).length,
        mediumByte d' (3 * demoDisk1000.sec + 10 + j) = ([99] : List Nat).getD j 0) ∧
      (∀ q, q < 3 * demoDisk1000.sec + 10 ∨
          3 * demoDisk1000.sec + 10 + ([99] : List Nat).length ≤ q →
        mediumByte d' q = mediumByte demoDisk1000 q)) := by
  have hb : 3 + touchedCnt 10 ([99] : List Nat).length demoDisk1000.sec ≤
      demoDisk1000.data.length := by
    rw [demoDisk1000_len]
    decide
  exact ⟨demoDisk1000_wf, by decide, by decide, hb, by decide,
    onWrite_rmw_frame demoDisk1000 3 10 [99] demoDisk1000_wf (by decide) (by decide)
      hb (by decide)⟩

/-! ### Aligned requests -/

theorem touchedCnt_aligned {m sec : Nat} (hm : 0 < m) (hsec : 0 < sec) :
    touchedCnt 0 (m * sec) sec = m := by
  unfold touchedCnt
  apply Nat.div_eq_of_lt_le
  · omega
  · rw [Nat.succ_mul]; omega

theorem flatten_map_singleton {α β : Type} (f : β → α) (l : List β) :
    (l.map (fun i => [f i])).flatten = l.map f := by
  induction l with
  | nil => rfl
  | cons x xs ihx => simp [ihx]

theorem writeMedOps_aligned {m sec : Nat} (lba : Nat) (hm : 0 < m) (hsec : 0 < sec) :
    writeMedOps 0 (m * sec) sec lba = (List.range m).map (fun i => MedOp.write (lba + i)) := by
  unfold writeMedOps
  rw [touchedCnt_aligned hm hsec]
  have h : ∀ i ∈ List.range m, sectorWOps 0 (m * sec) sec lba i = [MedOp.write (lba + i)] := by
    intro i hi
    rw [List.mem_range] at hi
    have hstep : i * sec + sec ≤ m * sec := by
      have h2 : (i + 1) * sec ≤ m * sec := Nat.mul_le_mul_right sec (by omega)
      rw [Nat.succ_mul] at h2
      exact h2
    have hr : rmwAt 0 (m * sec) sec i = false := by
      unfold rmwAt remAt
      rcases Nat.eq_zero_or_pos i with h0 | h0
      · subst h0
        simp
        omega
      · rw [if_neg (by omega), if_neg (by omega)]
        simp only [Bool.false_or, decide_eq_false_iff_not]
        omega
    simp [sectorWOps, hr]
  rw [List.map_congr_left h, flatten_map_singleton]

/-- C3: a request with byteOffset zero and length a positive multiple
m * sectorSize issues exactly m medium operations: the read path
performs exactly m sector reads, and the write path exactly m sector
writes with no read-modify-write read at all. -/
theorem aligned_request_op_count (d : Disk) (lba m : Nat) (src : List Nat)
    (hwf : diskWF d) (hsec : 0 < d.sec) (hm : 0 < m)
    (hsrc : src.length = m * d.sec)
    (hbound : lba + m ≤ d.data.length)
    (hok : ∀ i < m, lba + i ∉ d.readFail ∧ lba + i ∉ d.writeFail) :
    ((onRead d lba 0 (m * d.sec)).2 = (List.range m).map (fun i => MedOp.read (lba + i)) ∧
      (onRead d lba 0 (m * d.sec)).2.length = m) ∧
    (∃ d', onWrite d lba 0 src =
        (true, d', (List.range m).map (fun i => MedOp.write (lba + i))) ∧
      (onWrite d lba 0 src).2.2.length = m ∧
      (∀ b, MedOp.read b ∉ (onWrite d lba 0 src).2.2)) := by
  have hcnt : touchedCnt 0 (m * d.sec) d.sec = m := touchedCnt_aligned hm hsec
  have hok2 : ∀ i < touchedCnt 0 (m * d.sec) d.sec, lba + i ∉ d.readFail := by
    intro i hi
    rw [hcnt] at hi
    exact (hok i hi).1
  have hread := (onRead_correct d lba 0 (m * d.sec) hwf hsec (Nat.mul_pos hm hsec) hok2).1
  have hreadtr : (onRead d lba 0 (m * d.sec)).2 =
      (List.range m).map (fun i => MedOp.read (lba + i)) := by
    rw [hread]
    show readMedOps lba (touchedCnt 0 (m * d.sec) d.sec) = _
    rw [hcnt]
    rfl
  have hok3 : ∀ i < touchedCnt 0 src.length d.sec,
      lba + i ∉ d.readFail ∧ lba + i ∉ d.writeFail := by
    intro i hi
    rw [hsrc, hcnt] at hi
    exact hok i hi
  obtain ⟨d', h1, _, _, _, _, _, _, _⟩ :=
    onWriteLoop_ok src.length src lba 0 d le_rfl (by rw [hsrc]; positivity)
      hsec hwf (by rw [hsrc, hcnt]; omega) hok3
  have honw : onWrite d lba 0 src =
      (true, d', (List.range m).map (fun i => MedOp.write (lba + i))) := by
    unfold onWrite
    rw [if_neg (by rw [hsrc]; have := Nat.mul_pos hm hsec; omega)]
    rw [h1]
    congr 1
    congr 1
    rw [hsrc, writeMedOps_aligned lba hm hsec]
  refine ⟨⟨hreadtr, by rw [hreadtr]; simp⟩, d', honw, ?_, ?_⟩
  · rw [honw]; simp
  · intro b hmem
    rw [honw] at hmem
    simp only at hmem
    rcases List.mem_map.mp hmem with ⟨i, -, habs⟩
    exact absurd habs (by simp)

/-- A small medium for concrete checks: sector size 4, six sectors. -/
def smallDisk : Disk :=
  { sec := 4, data := List.replicate 6 (List.replicate 4 0),
    readFail := [], writeFail := [] }

theorem aligned_request_op_count_witness :
    diskWF smallDisk ∧ 0 < smallDisk.sec ∧ (0:Nat) < 2 ∧
    (List.replicate 8 5 : List Nat).length = 2 * smallDisk.sec ∧
    0 + 2 ≤ smallDisk.data.length ∧
    (((onRead smallDisk 0 0 (2 * smallDisk.sec)).2 =
        (List.range 2).map (fun i => MedOp.read (0 + i)) ∧
      (onRead smallDisk 0 0 (2 * smallDisk.sec)).2.length = 2) ∧
      (∃ d', onWrite smallDisk 0 0 (List.replicate 8 5) =
          (true, d', (List.range 2).map (fun i => MedOp.write (0 + i))) ∧
        (onWrite smallDisk 0 0 (List.replicate 8 5)).2.2.length = 2 ∧
        (∀ b, MedOp.read b ∉ (onWrite smallDisk 0 0 (List.replicate 8 5)).2.2))) := by
  exact ⟨by decide, by decide, by decide, by decide, by decide,
    aligned_request_op_count smallDisk 0 2 (List.replicate 8 5) (by decide) (by decide)
      (by decide) (by decide) (by decide) (by decide)⟩

/-- C4: writing a byte range and then reading the identical range, on a
medium where all sector operations succeed, returns exactly the data
that was written. -/
theorem write_read_roundtrip (d : Disk) (lba off : Nat) (src : List Nat)
    (hwf : diskWF d) (hoff : off < d.sec) (hpos : 0 < src.length)
    (hbound : lba + touchedCnt off src.length d.sec ≤ d.data.length)
    (hrf : d.readFail = []) (hwfail : d.writeFail = []) :
    (onWrite d lba off src).1 = true ∧
    (onRead (onWrite d lba off src).2.1 lba off src.length).1 = some src := by
  have hok : ∀ i < touchedCnt off src.length d.sec,
      lba + i ∉ d.readFail ∧ lba + i ∉ d.writeFail := by
    intro i _
    rw [hrf, hwfail]
    simp
  obtain ⟨d', h1, hsec', hlen', hrf', hwfl', hwf', hwrit', hframe'⟩ :=
    onWriteLoop_ok src.length src lba off d le_rfl hpos hoff hwf hbound hok
  have honw : onWrite d lba off src = (true, d', writeMedOps off src.length d.sec lba) := by
    unfold onWrite
    rw [if_neg (by omega)]
    exact h1
  rw [honw]
  refine ⟨rfl, ?_⟩
  show (onRead d' lba off src.length).1 = some src
  have hok2 : ∀ i < touchedCnt off src.length d'.sec, lba + i ∉ d'.readFail := by
    intro i _
    rw [hrf', hrf]
    simp
  have hr := (onRead_correct d' lba off src.length hwf' (by rw [hsec']; omega) hpos hok2).1
  rw [hr]
  show some (specRead d' (lba * d'.sec + off) src.length) = some src
  congr 1
  apply List.ext_getElem
  · rw [specRead_length]
  · intro j h1j h2j
    have hj : j < src.length := by rwa [specRead_length] at h1j
    have hsr : (specRead d' (lba * d'.sec + off) src.length)[j] =
        mediumByte d' (lba * d'.sec + off + j) := by simp [specRead]
    rw [hsr, hsec', hwrit' j hj, getD_eq_getElem_of_lt _ _ _ hj]

theorem write_read_roundtrip_witness :
    diskWF smallDisk ∧ 2 < smallDisk.sec ∧ (0:Nat) < ([9, 8, 7] : List Nat).length ∧
    1 + touchedCnt 2 ([9, 8, 7] : List Nat).length smallDisk.sec ≤ smallDisk.data.length ∧
    smallDisk.readFail = [] ∧ smallDisk.writeFail = [] ∧
    ((onWrite smallDisk 1 2 [9, 8, 7]).1 = true ∧
      (onRead (onWrite smallDisk 1 2 [9, 8, 7]).2.1 1 2 ([9, 8, 7] : List Nat).length).1 =
        some [9, 8, 7]) := by
  exact ⟨by decide, by decide, by decide, by decide, rfl, rfl,
    write_read_roundtrip smallDisk 1 2 [9, 8, 7] (by decide) (by decide) (by decide)
      (by decide) rfl rfl⟩

/-! ### Master theorem: a write walk failing at its j-th touched sector -/

theorem wOpsUpTo_shift {off len sec : Nat} (blk j : Nat) (hoff : off < sec)
    (hlt : sec - off < len) :
    ((List.range (j + 1)).map (sectorWOps off len sec blk)).flatten =
      sectorWOps off len sec blk 0 ++
        ((List.range j).map (sectorWOps 0 (len - (sec - off)) sec (blk + 1))).flatten := by
  rw [flatten_map_range_succ]
  congr 1
  congr 1
  apply List.map_congr_left
  intro i _
  exact sectorWOps_shift blk hoff hlt i

theorem onWriteLoop_failAt :
    ∀ (fuel : Nat) (src : List Nat) (blk off : Nat) (d : Disk) (j : Nat),
      src.length ≤ fuel → 0 < src.length → off < d.sec → diskWF d →
      blk + touchedCnt off src.length d.sec ≤ d.data.length →
      j < touchedCnt off src.length d.sec →
      (∀ i < j, blk + i ∉ d.readFail ∧ blk + i ∉ d.writeFail) →
      ((rmwAt off src.length d.sec j = true ∧ blk + j ∈ d.readFail) ∨
        (blk + j ∈ d.writeFail ∧ blk + j ∉ d.readFail)) →
      ∃ d', onWriteLoop d fuel blk off src =
          (false, d',
            ((List.range j).map (sectorWOps off src.length d.sec blk)).flatten ++
              (if blk + j ∈ d.readFail then [MedOp.read (blk + j)]
               else (if rmwAt off src.length d.sec j then [MedOp.read (blk + j)] else []) ++
                 [MedOp.write (blk + j)])) ∧
        d'.sec = d.sec ∧ d'.data.length = d.data.length ∧
        d'.readFail = d.readFail ∧ d'.writeFail = d.writeFail ∧ diskWF d' ∧
        (∀ p < wBefore off d.sec j,
          mediumByte d' (blk * d.sec + off + p) = src.getD p 0) ∧
        (∀ q, q < blk * d.sec + off ∨ blk * d.sec + off + wBefore off d.sec j ≤ q →
          mediumByte d' q = mediumByte d q) := by
  intro fuel
  induction fuel with
  | zero => intro src blk off d j h1 h2 _ _ _ _ _ _; omega
  | succ fuel ih =>
    intro src blk off d j hle hpos hoff hwf hbound hj hok hfail
    obtain ⟨a, src', rfl⟩ : ∃ a s, src = a :: s := by
      cases src with
      | nil => simp at hpos
      | cons a s => exact ⟨a, s, rfl⟩
    have hsec : 0 < d.sec := by omega
    have hlen1 : 0 < (a :: src').length := by simp
    cases j with
    | zero =>
      rcases hfail with hfA | hfB
      · -- the read-modify-write read of the first sector fails
        have hrmw : (decide (off ≠ 0) || decide ((a :: src').length < d.sec)) = true := by
          rw [← rmwAt_zero]; exact hfA.1
        have hrnone : readRAW d blk = none := by
          simp [readRAW, show blk ∈ d.readFail from by simpa using hfA.2]
        refine ⟨d, ?_, rfl, rfl, rfl, rfl, hwf, ?_, ?_⟩
        · rw [onWriteLoop_readfail fuel hrmw hrnone]
          have hin : blk + 0 ∈ d.readFail := by simpa using hfA.2
          rw [if_pos hin]
          simp
        · intro p hp
          exact absurd hp (by simp [wBefore])
        · intro q _
          rfl
      · -- the write of the first sector fails
        have hrnf : blk ∉ d.readFail := by simpa using hfB.2
        have hreadx : ∃ tmp, (if (decide (off ≠ 0) || decide ((a :: src').length < d.sec)) then
              readRAW d blk else some (List.replicate d.sec 0)) = some tmp := by
          by_cases hb : (off ≠ 0 ∨ (a :: src').length < d.sec)
          · exact ⟨d.data.getD blk (List.replicate d.sec 0),
              by rw [if_pos (by simpa using hb)]; simp [readRAW, hrnf]⟩
          · exact ⟨List.replicate d.sec 0, by rw [if_neg (by simpa using hb)]⟩
        obtain ⟨tmp, hread⟩ := hreadx
        have hwrnone : writeRAW d blk
            (tmp.take off ++ (a :: src').take (min (a :: src').length (d.sec - off)) ++
              tmp.drop (off + min (a :: src').length (d.sec - off))) = none := by
          simp [writeRAW, show blk ∈ d.writeFail from by simpa using hfB.1]
        refine ⟨d, ?_, rfl, rfl, rfl, rfl, hwf, ?_, ?_⟩
        · rw [onWriteLoop_writefail fuel hread hwrnone]
          have hnin : ¬ (blk + 0 ∈ d.readFail) := by simpa using hfB.2
          rw [if_neg hnin, rmwAt_zero]
          simp
        · intro p hp
          exact absurd hp (by simp [wBefore])
        · intro q _
          rfl
    | succ j' =>
      -- the first sector succeeds; recurse
      have hok0 := hok 0 (by omega)
      have hrnf : blk ∉ d.readFail := by simpa using hok0.1
      have hwnf : blk ∉ d.writeFail := by simpa using hok0.2
      have hcntpos : 0 < touchedCnt off (a :: src').length d.sec := by omega
      have hblkb : blk < d.data.length := by omega
      have hmulti : ¬ ((a :: src').length ≤ d.sec - off) := by
        intro hs
        have hle2 : off + (a :: src').length ≤ d.sec := by omega
        have h1 := touchedCnt_single hlen1 hle2
        omega
      have hreadx : ∃ tmp, (if (decide (off ≠ 0) || decide ((a :: src').length < d.sec)) then
            readRAW d blk else some (List.replicate d.sec 0)) = some tmp ∧
          tmp.length = d.sec ∧
          ((off ≠ 0 ∨ (a :: src').length < d.sec) →
            tmp = d.data.getD blk (List.replicate d.sec 0)) := by
        by_cases hb : (off ≠ 0 ∨ (a :: src').length < d.sec)
        · refine ⟨d.data.getD blk (List.replicate d.sec 0), ?_, sector_length hwf blk,
            fun _ => rfl⟩
          rw [if_pos (by simpa using hb)]
          simp [readRAW, hrnf]
        · exact ⟨List.replicate d.sec 0, by rw [if_neg (by simpa using hb)], by simp,
            fun h => absurd h hb⟩
      obtain ⟨tmp, hread, htmplen, htmpval⟩ := hreadx
      set chunk := min (a :: src').length (d.sec - off) with hchunkDef
      have hchle : chunk ≤ (a :: src').length := by omega
      have hchpos : 0 < chunk := by omega
      have hchunkeq : chunk = d.sec - off := by omega
      have hoc : off + chunk ≤ d.sec := by omega
      set buf := tmp.take off ++ (a :: src').take chunk ++ tmp.drop (off + chunk) with hbufDef
      have hbuflen : buf.length = d.sec := spliceBuf_length htmplen hchle hoc
      have hwrite : writeRAW d blk buf = some { d with data := d.data.set blk buf } := by
        simp [writeRAW, hwnf]
      set d2 : Disk := { d with data := d.data.set blk buf } with hd2Def
      have hd2sec : d2.sec = d.sec := rfl
      have hd2len : d2.data.length = d.data.length := by
        show (d.data.set blk buf).length = d.data.length
        simp
      have hd2rf : d2.readFail = d.readFail := rfl
      have hd2wfl : d2.writeFail = d.writeFail := rfl
      have hd2wf : diskWF d2 := diskWF_set hwf blk hbuflen
      have hd2byte : ∀ q, mediumByte d2 q =
          if q / d.sec = blk then buf.getD (q % d.sec) 0 else mediumByte d q :=
        fun q => mediumByte_set q hblkb
      rw [onWriteLoop_step fuel hread hwrite, ← hchunkDef]
      have hlt : d.sec - off < (a :: src').length := by omega
      have hdl : ((a :: src').drop chunk).length = (a :: src').length - chunk := by simp
      have hshift := touchedCnt_shift hoff hlt
      have hmul : (blk + 1) * d.sec = blk * d.sec + d.sec := Nat.succ_mul blk d.sec
      have hmulJ : (j' + 1) * d.sec = j' * d.sec + d.sec := Nat.succ_mul j' d.sec
      have hb2 : (blk + 1) + touchedCnt 0 ((a :: src').drop chunk).length d2.sec ≤
          d2.data.length := by
        rw [hd2sec, hd2len, hdl, hchunkeq]
        omega
      have hj2 : j' < touchedCnt 0 ((a :: src').drop chunk).length d2.sec := by
        rw [hd2sec, hdl, hchunkeq]
        omega
      have hok2 : ∀ i < j', (blk + 1) + i ∉ d2.readFail ∧ (blk + 1) + i ∉ d2.writeFail := by
        intro i hi
        rw [hd2rf, hd2wfl]
        have h2 := hok (i + 1) (by omega)
        have he : blk + (i + 1) = blk + 1 + i := by omega
        rwa [he] at h2
      have hfail2 : ((rmwAt 0 ((a :: src').drop chunk).length d2.sec j' = true ∧
            (blk + 1) + j' ∈ d2.readFail) ∨
          ((blk + 1) + j' ∈ d2.writeFail ∧ (blk + 1) + j' ∉ d2.readFail)) := by
        have he : blk + (j' + 1) = blk + 1 + j' := by omega
        have hra : rmwAt off (a :: src').length d.sec (j' + 1) =
            rmwAt 0 ((a :: src').drop chunk).length d2.sec j' := by
          rw [hd2sec, hdl, hchunkeq]
          exact rmwAt_shift hoff hlt j'
        rw [hd2rf, hd2wfl, ← he, ← hra]
        exact hfail
      obtain ⟨d3, hloop3, hsec3, hlen3, hrf3, hwfl3, hwf3, hcommit3, hframe3⟩ :=
        ih ((a :: src').drop chunk) (blk + 1) 0 d2 j' (by rw [hdl]; omega)
          (by rw [hdl]; omega) (by rw [hd2sec]; omega) hd2wf hb2 hj2 hok2 hfail2
      rw [hloop3]
      refine ⟨d3, ?_, hsec3.trans hd2sec, hlen3.trans hd2len, hrf3.trans hd2rf,
        hwfl3.trans hd2wfl, hwf3, ?_, ?_⟩
      · -- the trace
        rw [wOpsUpTo_shift blk j' hoff hlt]
        have hW : ((List.range j').map
              (sectorWOps 0 ((a :: src').drop chunk).length d2.sec (blk + 1))).flatten =
            ((List.range j').map
              (sectorWOps 0 ((a :: src').length - (d.sec - off)) d.sec (blk + 1))).flatten := by
          rw [hd2sec, hdl, hchunkeq]
        have he : blk + (j' + 1) = blk + 1 + j' := by omega
        have hra : rmwAt off (a :: src').length d.sec (j' + 1) =
            rmwAt 0 ((a :: src').drop chunk).length d2.sec j' := by
          rw [hd2sec, hdl, hchunkeq]
          exact rmwAt_shift hoff hlt j'
        rw [hW, he, hra, hd2rf]
        unfold sectorWOps
        rw [rmwAt_zero]
        have hra2 : rmwAt 0 ((a :: src').drop chunk).length d2.sec j' =
            rmwAt 0 ((a :: src').length - (d.sec - off)) d.sec j' := by
          rw [hd2sec, hdl, hchunkeq]
        rw [hra2]
        simp
      · -- the committed prefix
        intro p hp
        have hwB : wBefore off d.sec (j' + 1) = (j' + 1) * d.sec - off := by
          unfold wBefore
          rw [if_neg (by omega)]
        rw [hwB] at hp
        by_cases hpc : p < chunk
        · have hq : blk * d.sec + off + p < (blk + 1) * d2.sec + 0 := by
            rw [hd2sec, hmul]; omega
          rw [hframe3 (blk * d.sec + off + p) (Or.inl hq), hd2byte, Nat.add_assoc]
          have hdm := div_mod_of_lt blk (show off + p < d.sec by omega)
          rw [if_pos hdm.1, hdm.2, hbufDef, spliceBuf_getD _ htmplen hchle hoc,
            if_neg (by omega), if_pos (by omega)]
          congr 1
          omega
        · have hj0 : 0 < j' := by
            rcases Nat.eq_zero_or_pos j' with h0 | h0
            · exfalso
              subst h0
              have h1 : (0 + 1) * d.sec = d.sec := by rw [Nat.one_mul]
              omega
            · exact h0
          have hwB' : wBefore 0 d2.sec j' = j' * d.sec := by
            unfold wBefore
            rw [if_neg (by omega)]
            simp [hd2sec]
          have hc3 := hcommit3 (p - chunk) (by rw [hwB']; omega)
          have hpose : (blk + 1) * d2.sec + 0 + (p - chunk) = blk * d.sec + off + p := by
            rw [hd2sec, hmul]; omega
          rw [hpose] at hc3
          rw [hc3, getD_drop]
          congr 1
          omega
      · -- the frame
        intro q hq
        have hwB : wBefore off d.sec (j' + 1) = (j' + 1) * d.sec - off := by
          unfold wBefore
          rw [if_neg (by omega)]
        rw [hwB] at hq
        have hfr3 : mediumByte d3 q = mediumByte d2 q := by
          apply hframe3
          rcases hq with hq | hq
          · left; rw [hd2sec, hmul]; omega
          · right
            have hwB' : wBefore 0 d2.sec j' =
                if j' = 0 then 0 else j' * d.sec := by
              unfold wBefore
              rcases Nat.eq_zero_or_pos j' with h0 | h0
              · simp [h0]
              · rw [if_neg (by omega), if_neg (by omega)]
                simp [hd2sec]
            rcases Nat.eq_zero_or_pos j' with h0 | h0
            · rw [hwB', if_pos h0, hd2sec, hmul]
              omega
            · rw [hwB', if_neg (by omega), hd2sec, hmul]
              omega
        rw [hfr3, hd2byte]
        by_cases hdiv : q / d.sec = blk
        · rw [if_pos hdiv]
          obtain ⟨hlo, hhi⟩ := div_eq_imp_range hsec hdiv
          have hmod : q % d.sec = q - blk * d.sec := (div_mod_between hlo hhi).2
          rcases hq with hq | hq
          · have hoffne : off ≠ 0 := by omega
            rw [hbufDef, spliceBuf_getD _ htmplen hchle hoc, hmod,
              if_pos (by omega), htmpval (Or.inl hoffne)]
            have hqe : q = blk * d.sec + (q - blk * d.sec) := by omega
            conv_rhs => rw [hqe]
            rw [mediumByte_sector blk (by omega)]
          · exfalso
            omega
        · rw [if_neg hdiv]

theorem sectorWOps_blk {off len sec blk i : Nat} {op : MedOp}
    (h : op ∈ sectorWOps off len sec blk i) : op.blk = blk + i := by
  unfold sectorWOps at h
  rcases List.mem_append.mp h with h | h
  · by_cases hb : rmwAt off len sec i = true
    · rw [if_pos hb] at h
      simp at h
      rw [h]; rfl
    · rw [if_neg hb] at h
      simp at h
  · simp at h
    rw [h]; rfl

/-- C5: when some sector of a multi-sector write fails at the medium
level (its read-modify-write read fails, or its write fails), the
whole request returns -1 immediately, the trace stops at the failing
sector (no operation touches any later sector), and every sector
committed before the failing one retains the newly written data —
there is no request-level rollback. -/
theorem onWrite_fail_stops_early (d : Disk) (lba off j : Nat) (src : List Nat)
    (hwf : diskWF d) (hoff : off < d.sec) (hpos : 0 < src.length)
    (hbound : lba + touchedCnt off src.length d.sec ≤ d.data.length)
    (hmulti : 1 < touchedCnt off src.length d.sec)
    (hj : j < touchedCnt off src.length d.sec)
    (hok : ∀ i < j, lba + i ∉ d.readFail ∧ lba + i ∉ d.writeFail)
    (hfail : (rmwAt off src.length d.sec j = true ∧ lba + j ∈ d.readFail) ∨
      (lba + j ∈ d.writeFail ∧ lba + j ∉ d.readFail)) :
    ∃ d', onWrite d lba off src =
        (false, d',
          ((List.range j).map (sectorWOps off src.length d.sec lba)).flatten ++
            (if lba + j ∈ d.readFail then [MedOp.read (lba + j)]
             else (if rmwAt off src.length d.sec j then [MedOp.read (lba + j)] else []) ++
               [MedOp.write (lba + j)])) ∧
      onWriteRet d lba off src = -1 ∧
      (∀ op ∈ (onWrite d lba off src).2.2, op.blk ≤ lba + j) ∧
      (∀ p < wBefore off d.sec j,
        mediumByte d' (lba * d.sec + off + p) = src.getD p 0) ∧
      (∀ q, q < lba * d.sec + off ∨ lba * d.sec + off + wBefore off d.sec j ≤ q →
        mediumByte d' q = mediumByte d q) := by
  obtain ⟨d', h1, hsec', hlen', hrf', hwfl', hwf', hcommit, hframe⟩ :=
    onWriteLoop_failAt src.length src lba off d j le_rfl hpos hoff hwf hbound hj hok hfail
  have honw : onWrite d lba off src =
      (false, d',
        ((List.range j).map (sectorWOps off src.length d.sec lba)).flatten ++
          (if lba + j ∈ d.readFail then [MedOp.read (lba + j)]
           else (if rmwAt off src.length d.sec j then [MedOp.read (lba + j)] else []) ++
             [MedOp.write (lba + j)])) := by
    unfold onWrite
    rw [if_neg (by omega)]
    exact h1
  refine ⟨d', honw, ?_, ?_, hcommit, hframe⟩
  · unfold onWriteRet
    rw [honw]
    simp
  · intro op hop
    rw [honw] at hop
    simp only at hop
    rcases List.mem_append.mp hop with hop | hop
    · rcases List.mem_flatten.mp hop with ⟨l, hl, hopl⟩
      rcases List.mem_map.mp hl with ⟨i, hi, rfl⟩
      rw [List.mem_range] at hi
      have := sectorWOps_blk hopl
      omega
    · by_cases hin : lba + j ∈ d.readFail
      · rw [if_pos hin] at hop
        simp at hop
        rw [hop]
        simp [MedOp.blk]
      · rw [if_neg hin] at hop
        rcases List.mem_append.mp hop with h | h
        · by_cases hb : rmwAt off src.length d.sec j = true
          · rw [if_pos hb] at h
            simp at h
            rw [h]
            simp [MedOp.blk]
          · rw [if_neg hb] at h
            simp at h
        · simp at h
          rw [h]
          simp [MedOp.blk]

/-- A medium whose sector 3 refuses writes: sector size 4, six
sectors. -/
def failDisk : Disk :=
  { sec := 4, data := List.replicate 6 (List.replicate 4 0),
    readFail := [], writeFail := [3] }

theorem onWrite_fail_stops_early_witness :
    diskWF failDisk ∧ 0 < failDisk.sec ∧
    (0:Nat) < ([1, 2, 3, 4, 5, 6, 7, 8] : List Nat).length ∧
    2 + touchedCnt 0 ([1, 2, 3, 4, 5, 6, 7, 8] : List Nat).length failDisk.sec ≤
      failDisk.data.length ∧
    1 < touchedCnt 0 ([1, 2, 3, 4, 5, 6, 7, 8] : List Nat).length failDisk.sec ∧
    (∀ i < 1, 2 + i ∉ failDisk.readFail ∧ 2 + i ∉ failDisk.writeFail) ∧
    (2 + 1 ∈ failDisk.writeFail ∧ 2 + 1 ∉ failDisk.readFail) ∧
    (∃ d', onWrite failDisk 2 0 [1, 2, 3, 4, 5, 6, 7, 8] =
        (false, d',
          ((List.range 1).map
              (sectorWOps 0 ([1, 2, 3, 4, 5, 6, 7, 8] : List Nat).length failDisk.sec 2)).flatten ++
            (if 2 + 1 ∈ failDisk.readFail then [MedOp.read (2 + 1)]
             else (if rmwAt 0 ([1, 2, 3, 4, 5, 6, 7, 8] : List Nat).length failDisk.sec 1 then
                  [MedOp.read (2 + 1)] else []) ++
               [MedOp.write (2 + 1)])) ∧
      onWriteRet failDisk 2 0 [1, 2, 3, 4, 5, 6, 7, 8] = -1 ∧
      (∀ op ∈ (onWrite failDisk 2 0 [1, 2, 3, 4, 5, 6, 7, 8]).2.2, op.blk ≤ 2 + 1) ∧
      (∀ p < wBefore 0 failDisk.sec 1,
        mediumByte d' (2 * failDisk.sec + 0 + p) =
          ([1, 2, 3, 4, 5, 6, 7, 8] : List Nat).getD p 0) ∧
      (∀ q, q < 2 * failDisk.sec + 0 ∨ 2 * failDisk.sec + 0 + wBefore 0 failDisk.sec 1 ≤ q →
        mediumByte d' q = mediumByte failDisk q)) := by
  exact ⟨by decide, by decide, by decide, by decide, by decide, by decide,
    ⟨by decide, by decide⟩,
    onWrite_fail_stops_early failDisk 2 0 1 [1, 2, 3, 4, 5, 6, 7, 8] (by decide) (by decide)
      (by decide) (by decide) (by decide) (by decide) (by decide)
      (Or.inr ⟨by decide, by decide⟩)⟩

/-! ### Lifecycle properties -/

/-- A one-sector card used for concrete system-state checks. -/
def tinyDisk : Disk := { sec := 1, data := [[42]], readFail := [], writeFail := [] }

/-- An unreachable state: Unmounted, yet the card handle still open.
The translator happily serves it, showing its gate is the medium
handle, not MountState. -/
def stray : SysState := { mounted := false, usbOnline := false, card := some tinyDisk }

/-- C6 counterexample: a read issued while MountState is Unmounted is
not refused whenever the medium handle is open — the translator never
consults MountState, so the claim as stated fails on the state stray. -/
theorem onRead_unmounted_not_refused_cex :
    Storage.isMounted stray = false ∧
    (sysOnRead stray 0 0 1).1 = some [42] ∧
    (sysOnRead stray 0 0 1).2 = [MedOp.read 0] := by decide

/-- C6 (amended): in every state satisfying the lifecycle invariant
(Unmounted implies the medium handle is released), a read or write
issued while Unmounted returns -1 and performs no medium operation;
the refusal arises from the released medium reporting sector size 0,
not from a MountState check, and the advisory link state is never
consulted (translator results are invariant under usbOnline); the
invariant itself is preserved by every transition of the system. -/
theorem unmounted_refusal_via_closed_medium :
    (∀ st lba off n src, SInv st → st.mounted = false →
      sysOnRead st lba off n = (none, []) ∧
      sysOnWrite st lba off src = (false, cardDisk st.card, [])) ∧
    (∀ st b lba off n src,
      sysOnRead { st with usbOnline := b } lba off n = sysOnRead st lba off n ∧
      sysOnWrite { st with usbOnline := b } lba off src = sysOnWrite st lba off src) ∧
    (∀ env st, SInv st → SInv (Storage.mount env st).2.1) ∧
    (∀ st, SInv st → SInv (Storage.unmount st).1) ∧
    (∀ st s e, SInv st → SInv (onStartStop st s e).2.1) ∧
    (∀ st e, SInv st → SInv (usbEventCallback st e)) := by
  refine ⟨?_, ?_, ?_, ?_, ?_, ?_⟩
  · intro st lba off n src hinv hm
    have hc : st.card = none := hinv hm
    constructor
    · simp [sysOnRead, hc, cardDisk, onRead]
    · simp [sysOnWrite, hc, cardDisk, onWrite]
  · intro st b lba off n src
    exact ⟨rfl, rfl⟩
  · intro env st hinv
    unfold SInv Storage.mount at *
    split_ifs <;> intro hm <;> simp_all
  · intro st hinv
    unfold SInv Storage.unmount at *
    split_ifs <;> intro hm <;> simp_all
  · intro st s e hinv
    unfold SInv onStartStop Storage.unmount at *
    split_ifs <;> intro hm <;> simp_all
  · intro st e hinv
    unfold SInv usbEventCallback at *
    cases e <;> intro hm <;> simp_all

/-- The idle boot state: Unmounted, link down, bus released. -/
def stUn : SysState := { mounted := false, usbOnline := true, card := none }

theorem unmounted_refusal_via_closed_medium_witness :
    SInv stUn ∧ stUn.mounted = false ∧
    (sysOnRead stUn 0 0 5 = (none, []) ∧
      sysOnWrite stUn 0 0 [1] = (false, cardDisk stUn.card, [])) :=
  ⟨fun _ => rfl, rfl,
    unmounted_refusal_via_closed_medium.1 stUn 0 0 5 [1] (fun _ => rfl) rfl⟩

/-- C7: whenever mount fails (begin failure, no card, zero geometry,
or mass-storage class startup failure — and those are exactly the ways
it can fail from a clean Unmounted state), the system stays Unmounted
with the medium handle released. -/
theorem mount_failure_leaves_unmounted :
    ∀ env st, st.mounted = false → st.card = none →
      (((Storage.mount env st).1 = false ↔
        (env.beginOk = false ∨ env.cardPresent = false ∨ env.disk.sec = 0 ∨
          env.secCount = 0 ∨ env.mscBeginOk = false)) ∧
      ((Storage.mount env st).1 = false →
        Storage.isMounted (Storage.mount env st).2.1 = false ∧
        (Storage.mount env st).2.1.card = none)) := by
  intro env st hm hc
  unfold Storage.mount Storage.isMounted
  split_ifs <;> (try simp_all) <;> tauto

/-- A mount environment with no card inserted. -/
def envNoCard : Env :=
  { beginOk := true, cardPresent := false, disk := smallDisk, secCount := 6,
    mscBeginOk := true }

/-- The clean boot state. -/
def stStart : SysState := { mounted := false, usbOnline := false, card := none }

theorem mount_failure_leaves_unmounted_witness :
    stStart.mounted = false ∧ stStart.card = none ∧
    (((Storage.mount envNoCard stStart).1 = false ↔
      (envNoCard.beginOk = false ∨ envNoCard.cardPresent = false ∨
        envNoCard.disk.sec = 0 ∨ envNoCard.secCount = 0 ∨
        envNoCard.mscBeginOk = false)) ∧
    ((Storage.mount envNoCard stStart).1 = false →
      Storage.isMounted (Storage.mount envNoCard stStart).2.1 = false ∧
      (Storage.mount envNoCard stStart).2.1.card = none)) :=
  ⟨rfl, rfl, mount_failure_leaves_unmounted envNoCard stStart rfl rfl⟩

/-- C8: mount while already Mounted is a success no-op performing no
medium, descriptor or class-start action; hence two consecutive mounts
both succeed and the second performs nothing. -/
theorem mount_noop_when_mounted :
    (∀ env st, st.mounted = true → Storage.mount env st = (true, st, [])) ∧
    (∀ env env2 st, (Storage.mount env st).1 = true →
      Storage.mount env2 (Storage.mount env st).2.1 =
        (true, (Storage.mount env st).2.1, [])) := by
  have hbase : ∀ env st, st.mounted = true → Storage.mount env st = (true, st, []) := by
    intro env st hm
    unfold Storage.mount
    rw [if_pos hm]
  refine ⟨hbase, ?_⟩
  intro env env2 st hsucc
  have hm2 : (Storage.mount env st).2.1.mounted = true := by
    unfold Storage.mount at hsucc ⊢
    split_ifs at hsucc ⊢ <;> simp_all
  exact hbase env2 _ hm2

/-- A fully successful mount environment. -/
def envGood : Env :=
  { beginOk := true, cardPresent := true, disk := smallDisk, secCount := 6,
    mscBeginOk := true }

theorem mount_noop_when_mounted_witness :
    (Storage.mount envGood stStart).1 = true ∧
    Storage.mount envGood (Storage.mount envGood stStart).2.1 =
      (true, (Storage.mount envGood stStart).2.1, []) := by
  have h1 : (Storage.mount envGood stStart).1 = true := by decide
  exact ⟨h1, mount_noop_when_mounted.2 envGood envGood stStart h1⟩

/-- C9: a host stop command with the eject flag, received while
Mounted, acts exactly like a local unmount: afterwards isMounted is
false and a further local unmount is a no-op; a stop command without
the eject flag is acknowledged (the handler returns true) and changes
nothing. -/
theorem startStop_eject_acts_as_unmount :
    (∀ st, st.mounted = true →
      onStartStop st false true = (true, (Storage.unmount st).1, (Storage.unmount st).2) ∧
      Storage.isMounted (onStartStop st false true).2.1 = false ∧
      Storage.unmount (onStartStop st false true).2.1 =
        ((onStartStop st false true).2.1, [])) ∧
    (∀ st s, onStartStop st s false = (true, st, [])) := by
  constructor
  · intro st hm
    refine ⟨rfl, ?_, ?_⟩
    · simp [onStartStop, Storage.unmount, Storage.isMounted, hm]
    · simp [onStartStop, Storage.unmount, hm]
  · intro st s
    simp [onStartStop]

/-- A mounted state with the small card. -/
def stM : SysState := { mounted := true, usbOnline := true, card := some smallDisk }

theorem startStop_eject_acts_as_unmount_witness :
    stM.mounted = true ∧
    (onStartStop stM false true = (true, (Storage.unmount stM).1, (Storage.unmount stM).2) ∧
      Storage.isMounted (onStartStop stM false true).2.1 = false ∧
      Storage.unmount (onStartStop stM false true).2.1 =
        ((onStartStop stM false true).2.1, [])) :=
  ⟨rfl, startStop_eject_acts_as_unmount.1 stM rfl⟩
